import Mathlib

/-!
Verification development for the `chessanalysis` package of the
chess-analyzer repository (src/chessanalysis/stockfish.go and
src/chessanalysis/analysis.go).

Modelling conventions:
* Go `float64` values are modelled as `ℚ` (the program only adds,
  subtracts, negates, divides by constants and compares them).
* An engine response line is modelled pre-classified by the string tests
  the Go code performs on it (`strings.Contains(response, "score cp ")`,
  `strings.Contains(response, " wdl ")`, `strings.HasPrefix(response,
  "bestmove")` plus the `fmt.Sscanf` extraction of the payload).
* The engine's response channel is a list of such lines, consumed in
  order; a closed channel is the end of the list.
* The external chess-rules library (PGN parsing, SAN/UCI encoding,
  move application) is an oracle: each parsed ply carries the SAN and
  UCI encodings the library would produce for it, a flag telling
  whether `PushMove` succeeds, and the decode-then-encode function the
  driver applies to the engine's best move at that ply's position.
* Channels are modelled by the finite list of values sent before the
  channel is closed.
-/

namespace ChessAnalyzer

/-- Move quality labels, in the declaration order of the Go constants
(`Neutral` is the zero value). From src/chessanalysis/analysis.go. -/
inductive MoveClassification where
  | Neutral
  | Blunder
  | Questionable
  | Good
  | Excellent
  | Winning
  | Best
  deriving DecidableEq, Repr

/-- One line of engine output, pre-classified by the string tests the Go
scan loops apply to it: `scoreCp` is the number `fmt.Sscanf`'d after
`"score cp "` when the line contains that marker, `wdl` is the permille
triple after `" wdl "`, `isBestmove` tells whether the line starts with
`"bestmove"`, and `bmArg` is the second whitespace field of such a line
when present. -/
structure ResponseLine where
  scoreCp : Option ℚ
  wdl : Option (Int × Int × Int)
  isBestmove : Bool
  bmArg : Option String
  deriving DecidableEq, Repr

/-- State accumulated by one scan loop of `analyzeLastMove`
(src/chessanalysis/stockfish.go lines 128-157 and 176-199): the last
seen score, the last seen win/draw/loss probabilities (already divided
by 1000), the argument of the terminating `bestmove` line, whether such
a line was seen before the stream closed, and the lines left unread. -/
structure ScanResult where
  score : ℚ
  win : ℚ
  draw : ℚ
  loss : ℚ
  bestMove : String
  sawBestmove : Bool
  rest : List ResponseLine
  deriving DecidableEq, Repr

/-- The scan loop of `analyzeLastMove`: walk the response stream in
order; every line containing `score cp` overwrites the score
accumulator, every line containing `wdl` overwrites the probability
accumulators, and a line starting with `bestmove` records its argument
and stops the loop.  Reaching the end of the list is the channel
closing without a terminator, in which case the loop simply ends with
whatever was accumulated (the Go `for range` just exits).  The score is
kept in raw centipawns here; both Go loops divide by 100 at the point
of storage, which commutes with taking the last value. -/
def scanSearch (score win draw loss : ℚ) (bm : String) :
    List ResponseLine → ScanResult
  | [] => ⟨score, win, draw, loss, bm, false, []⟩
  | l :: ls =>
    let score' := match l.scoreCp with
      | some s => s
      | none => score
    let wdl' := match l.wdl with
      | some (w, d, lo) => ((w : ℚ) / 1000, (d : ℚ) / 1000, (lo : ℚ) / 1000)
      | none => (win, draw, loss)
    if l.isBestmove then
      ⟨score', wdl'.1, wdl'.2.1, wdl'.2.2,
        (match l.bmArg with | some m => m | none => bm), true, ls⟩
    else
      scanSearch score' wdl'.1 wdl'.2.1 wdl'.2.2 bm ls

/-- Result of one per-ply evaluation.  Modelled from the spec: the
revision of stockfish.go present under src/ still names these fields
`Score`, `WinProb`, ... and performs no perspective change, but
src/chessanalysis/analysis.go (the current driver) reads the
`White`-named fields below, which the spec describes as the engine
values re-expressed relative to White. -/
structure AnalysisResult where
  WhiteScore : ℚ
  WhiteWinProb : ℚ
  WhiteDrawProb : ℚ
  WhiteLossProb : ℚ
  BestMove : String
  BestMoveWhiteScore : ℚ
  BestMoveWhiteWinProb : ℚ
  BestMoveWhiteDrawProb : ℚ
  BestMoveWhiteLossProb : ℚ
  deriving DecidableEq, Repr

/-- Commands `analyzeLastMove` writes to the engine, abstracting the
`fmt.Sprintf` formatting: `position ms` is `position startpos` when
`ms = []` and `position startpos moves <ms>` otherwise; `goDepth d` is
`go depth d`; `goSearchmoves d m` is `go depth d searchmoves m`. -/
inductive Command where
  | position (moves : List String)
  | goDepth (depth : Nat)
  | goSearchmoves (depth : Nat) (move : String)
  deriving DecidableEq, Repr

/-- Modelled from the spec: re-expression of a mover-perspective score
relative to White — identity when White just moved, sign flip when
Black did.  This conversion is required by analysis.go's use of the
`White`-named result fields but is absent from the stockfish.go
revision under src/. -/
def whiteRelScore (isWhiteMove : Bool) (s : ℚ) : ℚ :=
  if isWhiteMove then s else -s

/-- Modelled from the spec: re-expression of a mover-perspective
win/draw/loss triple relative to White — identity when White just
moved, win/loss swap when Black did. -/
def whiteRelWdl (isWhiteMove : Bool) (w d l : ℚ) : ℚ × ℚ × ℚ :=
  if isWhiteMove then (w, d, l) else (l, d, w)

/-- The two-phase per-ply evaluation of src/chessanalysis/stockfish.go
(`analyzeLastMove`): refuse when the engine is not ready or no moves
were given; otherwise send `position` for the prefix before the last
move and a depth-limited `go`, scan to the first `bestmove` terminator,
and, only when the scanned best move differs from the played move, send
the position again with `go ... searchmoves <played>` and scan a second
time; when they are equal the first search's values are reused for the
played move.  Returns the evaluation, the commands issued in order, and
the unread rest of the response stream.  The `White`-named output
fields and their perspective conversion are modelled from the spec (see
`AnalysisResult`); the mover is White exactly when the move list has
odd length. -/
def analyzeLastMove (ready : Bool) (moves : List String) (depth : Nat)
    (stream : List ResponseLine) :
    Except String (AnalysisResult × List Command × List ResponseLine) :=
  if ready = false then .error "engine not ready"
  else if h : moves = [] then .error "no moves provided"
  else
    let lastMove := moves.getLast h
    let posCmd := Command.position moves.dropLast
    let s1 := scanSearch 0 0 0 0 "" stream
    let isWhiteMove := moves.length % 2 == 1
    let bestScore := whiteRelScore isWhiteMove (s1.score / 100)
    let bwdl := whiteRelWdl isWhiteMove s1.win s1.draw s1.loss
    if s1.bestMove != lastMove then
      let s2 := scanSearch 0 0 0 0 "" s1.rest
      let pScore := whiteRelScore isWhiteMove (s2.score / 100)
      let pwdl := whiteRelWdl isWhiteMove s2.win s2.draw s2.loss
      .ok ({ WhiteScore := pScore, WhiteWinProb := pwdl.1,
             WhiteDrawProb := pwdl.2.1, WhiteLossProb := pwdl.2.2,
             BestMove := s1.bestMove, BestMoveWhiteScore := bestScore,
             BestMoveWhiteWinProb := bwdl.1,
             BestMoveWhiteDrawProb := bwdl.2.1,
             BestMoveWhiteLossProb := bwdl.2.2 },
           [posCmd, .goDepth depth, posCmd, .goSearchmoves depth lastMove],
           s2.rest)
    else
      .ok ({ WhiteScore := bestScore, WhiteWinProb := bwdl.1,
             WhiteDrawProb := bwdl.2.1, WhiteLossProb := bwdl.2.2,
             BestMove := s1.bestMove, BestMoveWhiteScore := bestScore,
             BestMoveWhiteWinProb := bwdl.1,
             BestMoveWhiteDrawProb := bwdl.2.1,
             BestMoveWhiteLossProb := bwdl.2.2 },
           [posCmd, .goDepth depth],
           s1.rest)

/-- The raw (mover-perspective) played-move evaluation extracted from a
per-ply response stream, exactly as the scan loops of
src/chessanalysis/stockfish.go produce it: the first search's values
when its best move equals the played move, the second search's values
otherwise.  Score in pawns (centipawns / 100), probabilities already
divided by 1000.  Used to state what "the raw engine output" of a ply
is. -/
def playedRawEval (stream : List ResponseLine) (lastMove : String) :
    ℚ × ℚ × ℚ × ℚ :=
  let s1 := scanSearch 0 0 0 0 "" stream
  if s1.bestMove != lastMove then
    let s2 := scanSearch 0 0 0 0 "" s1.rest
    (s2.score / 100, s2.win, s2.draw, s2.loss)
  else
    (s1.score / 100, s1.win, s1.draw, s1.loss)

/-- One emitted move record, with the fields of the Go struct
`MoveAnalysis` (src/chessanalysis/analysis.go).  `Color` is the Go
string `"White"` or `"Black"`. -/
structure MoveAnalysis where
  MoveNumber : Nat
  Color : String
  MoveText : String
  WhiteScore : ℚ
  PreviousWhiteScore : ℚ
  IsBestMove : Bool
  BestMove : String
  BestMoveSAN : String
  BestMoveWhiteScore : ℚ
  WhiteWinProb : ℚ
  WhiteDrawProb : ℚ
  WhiteLossProb : ℚ
  PreviousWhiteWinProb : ℚ
  PreviousWhiteDrawProb : ℚ
  PreviousWhiteLossProb : ℚ
  BestMoveWhiteWinProb : ℚ
  BestMoveWhiteDrawProb : ℚ
  BestMoveWhiteLossProb : ℚ
  Classification : MoveClassification
  deriving DecidableEq, Repr

/-- The configurable thresholds of the default classification policy
(struct `ThresholdMoveClassifier` in src/chessanalysis/analysis.go). -/
structure ThresholdMoveClassifier where
  blunderWinProbThreshold : ℚ
  blunderLossProbThreshold : ℚ
  questionableWinProbThreshold : ℚ
  questionableLossProbThreshold : ℚ
  goodWinProbThreshold : ℚ
  goodLossProbThreshold : ℚ
  excellentWinProbThreshold : ℚ
  excellentLossProbThreshold : ℚ
  deriving DecidableEq, Repr

/-- The classification method `ThresholdMoveClassifier.ClassifyMove`
(src/chessanalysis/analysis.go lines 44-76): `Best` for the engine's
best move, otherwise a cascade of threshold tests on the
mover-perspective win/loss probability deltas against the previous
ply.  For a Black mover the deltas exchange the roles of the stored
(White-relative) win and loss probabilities. -/
def ThresholdMoveClassifier.classifyMove (c : ThresholdMoveClassifier)
    (move : MoveAnalysis) : MoveClassification :=
  if move.IsBestMove then .Best
  else
    let deltas :=
      if move.Color = "White" then
        (move.WhiteWinProb - move.PreviousWhiteWinProb,
         move.WhiteLossProb - move.PreviousWhiteLossProb)
      else
        (move.WhiteLossProb - move.PreviousWhiteLossProb,
         move.WhiteWinProb - move.PreviousWhiteWinProb)
    let winProbDelta := deltas.1
    let lossProbDelta := deltas.2
    if winProbDelta ≤ -c.blunderWinProbThreshold ∨
        lossProbDelta ≥ c.blunderLossProbThreshold then .Blunder
    else if winProbDelta ≤ -c.questionableWinProbThreshold ∨
        lossProbDelta ≥ c.questionableLossProbThreshold then .Questionable
    else if winProbDelta ≥ c.excellentWinProbThreshold ∨
        lossProbDelta ≤ -c.excellentLossProbThreshold then .Excellent
    else if winProbDelta ≥ c.goodWinProbThreshold ∨
        lossProbDelta ≤ -c.goodLossProbThreshold then .Good
    else .Neutral

/-- The default threshold settings (`DefaultMoveClassifier` in
src/chessanalysis/analysis.go lines 78-89), as a classification
function (the Go `MoveClassifier` interface is a function from a record
to a label). -/
def defaultMoveClassifier : MoveAnalysis → MoveClassification :=
  ThresholdMoveClassifier.classifyMove
    { blunderWinProbThreshold := 0.2
      blunderLossProbThreshold := 0.2
      questionableWinProbThreshold := 0.1
      questionableLossProbThreshold := 0.1
      goodWinProbThreshold := 0.05
      goodLossProbThreshold := 0.05
      excellentWinProbThreshold := 0.1
      excellentLossProbThreshold := 0.1 }

/-- One ply of the parsed game, together with the answers the external
chess-rules library gives at this ply's pre-move position: `san` and
`uci` are the SAN and UCI encodings of the played move, `pushOk` tells
whether `PushMove` accepts it on the running game, and `decodeBest s`
is `Decode` of the UCI string `s` followed by SAN `Encode` (`none` when
`Decode` fails). -/
structure Ply where
  san : String
  uci : String
  pushOk : Bool
  decodeBest : String → Option String

/-- Loop state of the analysis goroutine in `AnalyzeChessGameStreaming`
(src/chessanalysis/analysis.go lines 263-349): the previous ply's
stored score and probabilities, the accumulated UCI move list, and the
engine response stream not yet consumed. -/
structure RunState where
  prevScore : ℚ
  prevWin : ℚ
  prevDraw : ℚ
  prevLoss : ℚ
  uciMoves : List String
  stream : List ResponseLine

/-- Color string of the ply at 0-based index `i`, as the Go loop
computes it (`i%2 == 1` is Black). -/
def colorOf (i : Nat) : String :=
  if i % 2 = 1 then "Black" else "White"

/-- The per-move analysis loop of `AnalyzeChessGameStreaming`, one Go
loop iteration per list element, with the 0-based ply index `i` made
explicit.  Returns the records sent on the results channel in order
and the value sent on the error channel, if any.  Mirrors the source:
a `PushMove` failure or an evaluator error stops the loop with an
error; a non-empty engine best move that the rules library cannot
decode skips the ply (`continue`) without emitting a record and
without updating the previous-ply values; otherwise a record is built,
classified and emitted, and the previous-ply values become this
record's stored values. -/
def runLoop (classifier : MoveAnalysis → MoveClassification) (depth : Nat) :
    List Ply → Nat → RunState → List MoveAnalysis × Option String
  | [], _, _ => ([], none)
  | ply :: rest, i, st =>
    if ply.pushOk = false then ([], some "error moving in running game")
    else
      let uciMoves := st.uciMoves ++ [ply.uci]
      let moveNum := i / 2 + 1
      match analyzeLastMove true uciMoves depth st.stream with
      | .error e =>
        ([], some ("analysis error at move " ++ toString moveNum ++ ": " ++ e))
      | .ok (result, _, stream') =>
        if result.BestMove ≠ "" ∧ ply.decodeBest result.BestMove = none then
          runLoop classifier depth rest (i + 1)
            { st with uciMoves := uciMoves, stream := stream' }
        else
          let bestSAN :=
            if result.BestMove = "" then ""
            else (ply.decodeBest result.BestMove).getD ""
          let base : MoveAnalysis :=
            { MoveNumber := moveNum
              Color := colorOf i
              MoveText := ply.san
              WhiteScore := result.WhiteScore
              PreviousWhiteScore := st.prevScore
              IsBestMove := result.BestMove == ply.uci
              BestMove := result.BestMove
              BestMoveSAN := bestSAN
              BestMoveWhiteScore := 0
              WhiteWinProb := result.WhiteWinProb
              WhiteDrawProb := result.WhiteDrawProb
              WhiteLossProb := result.WhiteLossProb
              PreviousWhiteWinProb := st.prevWin
              PreviousWhiteDrawProb := st.prevDraw
              PreviousWhiteLossProb := st.prevLoss
              BestMoveWhiteWinProb := result.BestMoveWhiteWinProb
              BestMoveWhiteDrawProb := result.BestMoveWhiteDrawProb
              BestMoveWhiteLossProb := result.BestMoveWhiteLossProb
              Classification := .Neutral }
          let record := { base with Classification := classifier base }
          let next := runLoop classifier depth rest (i + 1)
            { prevScore := result.WhiteScore
              prevWin := result.WhiteWinProb
              prevDraw := result.WhiteDrawProb
              prevLoss := result.WhiteLossProb
              uciMoves := uciMoves
              stream := stream' }
          (record :: next.1, next.2)

/-- Modelled from the spec: the package-level starting-position score
constant read by analysis.go (`StartingPositionWhiteScore`).  The
stockfish.go revision under src/ only has `StartingPositionScore =
0.11`; the White-named constants analysis.go uses are missing from
src/, so the score keeps that value and the probability constants
below are arbitrary representatives (no claim depends on the values,
only on the names). -/
def StartingPositionWhiteScore : ℚ := 0.11

/-- Modelled from the spec: starting-position White win probability
constant read by analysis.go (value not present under src/). -/
def StartingPositionWhiteWinProb : ℚ := 0

/-- Modelled from the spec: starting-position White draw probability
constant read by analysis.go (value not present under src/). -/
def StartingPositionWhiteDrawProb : ℚ := 0

/-- Modelled from the spec: starting-position White loss probability
constant read by analysis.go (value not present under src/). -/
def StartingPositionWhiteLossProb : ℚ := 0

/-- Observable outcome of one call to `AnalyzeChessGameStreaming`: the
records sent on the results channel before it closed, the values sent
on the error channel before it closed, and whether a Stockfish engine
process was (attempted to be) spawned. -/
structure StreamOutput where
  records : List MoveAnalysis
  errors : List String
  engineSpawned : Bool
  deriving DecidableEq, Repr

/-- The streaming pipeline `AnalyzeChessGameStreaming`
(src/chessanalysis/analysis.go lines 216-353).  `engine` is `some
stream` when `NewStockfishEngine` succeeds (handshake done, `ready`
true) with `stream` the engine's subsequent response lines, `none` when
it fails; `parsedGame` is the rules library's PGN parse result.  An
empty PGN short-circuits with one error and no engine spawn; an engine
or parse failure yields one error; otherwise the per-move loop runs
with the previous-ply values seeded from the starting-position
constants. -/
def analyzeChessGameStreaming (pgn : String)
    (engine : Option (List ResponseLine)) (parsedGame : Option (List Ply))
    (depth : Nat) (classifier : MoveAnalysis → MoveClassification) :
    StreamOutput :=
  if pgn = "" then
    { records := [], errors := ["empty PGN"], engineSpawned := false }
  else
    match engine with
    | none =>
      { records := [], errors := ["failed to initialize Stockfish"],
        engineSpawned := true }
    | some stream =>
      match parsedGame with
      | none =>
        { records := [], errors := ["error parsing PGN"],
          engineSpawned := true }
      | some plies =>
        let r := runLoop classifier depth plies 0
          { prevScore := StartingPositionWhiteScore
            prevWin := StartingPositionWhiteWinProb
            prevDraw := StartingPositionWhiteDrawProb
            prevLoss := StartingPositionWhiteLossProb
            uciMoves := []
            stream := stream }
        { records := r.1, errors := r.2.toList, engineSpawned := true }

/-! ## Theorems -/

/-- C7: for every setting of the threshold classifier's thresholds and
for every move record, if the record's `IsBestMove` flag is true then
its classification is `Best`, regardless of the probability deltas. -/
theorem best_move_always_classified_Best (c : ThresholdMoveClassifier)
    (m : MoveAnalysis) (h : m.IsBestMove = true) :
    c.classifyMove m = .Best := by
  simp [ThresholdMoveClassifier.classifyMove, h]

/-- A concrete emitted-style record used to witness the classifier
theorems (best move played, probabilities arbitrary). -/
def sampleBestRecord : MoveAnalysis :=
  { MoveNumber := 1
    Color := "White"
    MoveText := "e4"
    WhiteScore := 0.2
    PreviousWhiteScore := 0.11
    IsBestMove := true
    BestMove := "e2e4"
    BestMoveSAN := "e4"
    BestMoveWhiteScore := 0
    WhiteWinProb := 0.25
    WhiteDrawProb := 0.3
    WhiteLossProb := 0.45
    PreviousWhiteWinProb := 0.5
    PreviousWhiteDrawProb := 0.3
    PreviousWhiteLossProb := 0.2
    BestMoveWhiteWinProb := 0.55
    BestMoveWhiteDrawProb := 0.3
    BestMoveWhiteLossProb := 0.15
    Classification := .Neutral }

/-- Witness for C7 at a concrete record whose probability deltas would
otherwise make it a blunder. -/
theorem best_move_always_classified_Best_witness :
    ThresholdMoveClassifier.classifyMove
      { blunderWinProbThreshold := 0.2
        blunderLossProbThreshold := 0.2
        questionableWinProbThreshold := 0.1
        questionableLossProbThreshold := 0.1
        goodWinProbThreshold := 0.05
        goodLossProbThreshold := 0.05
        excellentWinProbThreshold := 0.1
        excellentLossProbThreshold := 0.1 } sampleBestRecord = .Best :=
  best_move_always_classified_Best _ sampleBestRecord rfl

/-- C9: on the empty PGN the stream function emits zero records, sends
exactly one value on the error channel, closes both channels (the
output lists are exactly these), and never spawns an engine process. -/
theorem empty_pgn_zero_records_one_error (engine : Option (List ResponseLine))
    (parsedGame : Option (List Ply)) (depth : Nat)
    (classifier : MoveAnalysis → MoveClassification) :
    analyzeChessGameStreaming "" engine parsedGame depth classifier =
      { records := [], errors := ["empty PGN"], engineSpawned := false } := by
  simp [analyzeChessGameStreaming]

/-- The claim's threshold table, written from the spec's words: Blunder
if Δwin ≤ −0.20 or Δloss ≥ +0.20; else Questionable if Δwin ≤ −0.10 or
Δloss ≥ +0.10; else Excellent if Δwin ≥ +0.10 or Δloss ≤ −0.10; else
Good if Δwin ≥ +0.05 or Δloss ≤ −0.05; else Neutral. -/
def specThresholdTable (dwin dloss : ℚ) : MoveClassification :=
  if dwin ≤ -0.2 ∨ dloss ≥ 0.2 then .Blunder
  else if dwin ≤ -0.1 ∨ dloss ≥ 0.1 then .Questionable
  else if dwin ≥ 0.1 ∨ dloss ≤ -0.1 then .Excellent
  else if dwin ≥ 0.05 ∨ dloss ≤ -0.05 then .Good
  else .Neutral

/-- C3: a record that is not the engine's best move is labelled by the
default classifier according to the spec's threshold table on the
mover's-perspective deltas, where a White mover's deltas are the
differences of the stored White win/loss probabilities against the
previous ply and a Black mover's deltas exchange the roles of the
stored win and loss probabilities. -/
theorem default_classifier_matches_threshold_table (m : MoveAnalysis)
    (h : m.IsBestMove = false) :
    (m.Color = "White" →
      defaultMoveClassifier m =
        specThresholdTable (m.WhiteWinProb - m.PreviousWhiteWinProb)
          (m.WhiteLossProb - m.PreviousWhiteLossProb)) ∧
    (m.Color = "Black" →
      defaultMoveClassifier m =
        specThresholdTable (m.WhiteLossProb - m.PreviousWhiteLossProb)
          (m.WhiteWinProb - m.PreviousWhiteWinProb)) := by
  constructor <;> intro hc
  · simp [defaultMoveClassifier, ThresholdMoveClassifier.classifyMove, h, hc,
      specThresholdTable]
  · have hne : ¬ (m.Color = "White") := by simp [hc]
    simp [defaultMoveClassifier, ThresholdMoveClassifier.classifyMove, h, hne,
      specThresholdTable]

/-- A concrete non-best Black record: the mover's-perspective win
probability (White's loss probability) drops by 0.25. -/
def sampleBlunderRecord : MoveAnalysis :=
  { sampleBestRecord with
    Color := "Black"
    IsBestMove := false
    WhiteWinProb := 0.45
    WhiteLossProb := 0.25
    PreviousWhiteWinProb := 0.2
    PreviousWhiteLossProb := 0.5 }

/-- Witness for C3 at a concrete Black record; its table entry is
`Blunder`. -/
theorem default_classifier_matches_threshold_table_witness :
    ((sampleBlunderRecord.Color = "White" →
      defaultMoveClassifier sampleBlunderRecord =
        specThresholdTable
          (sampleBlunderRecord.WhiteWinProb -
            sampleBlunderRecord.PreviousWhiteWinProb)
          (sampleBlunderRecord.WhiteLossProb -
            sampleBlunderRecord.PreviousWhiteLossProb)) ∧
    (sampleBlunderRecord.Color = "Black" →
      defaultMoveClassifier sampleBlunderRecord =
        specThresholdTable
          (sampleBlunderRecord.WhiteLossProb -
            sampleBlunderRecord.PreviousWhiteLossProb)
          (sampleBlunderRecord.WhiteWinProb -
            sampleBlunderRecord.PreviousWhiteWinProb))) ∧
    specThresholdTable
      (sampleBlunderRecord.WhiteLossProb -
        sampleBlunderRecord.PreviousWhiteLossProb)
      (sampleBlunderRecord.WhiteWinProb -
        sampleBlunderRecord.PreviousWhiteWinProb) = .Blunder :=
  ⟨default_classifier_matches_threshold_table sampleBlunderRecord rfl,
   by norm_num [specThresholdTable, sampleBlunderRecord, sampleBestRecord]⟩

/-- Number of searches (`go` commands of either form) in a command
list. -/
def goCount (cmds : List Command) : Nat :=
  (cmds.filter fun c => match c with
    | .goDepth _ => true
    | .goSearchmoves _ _ => true
    | .position _ => false).length

/-- Whether a command list contains a `go ... searchmoves` command,
i.e. whether the second (played-move) search was issued. -/
def hasSearchmovesCmd (cmds : List Command) : Bool :=
  cmds.any fun c => match c with
    | .goSearchmoves _ _ => true
    | _ => false

/-- C4: the evaluation of a non-empty move list always succeeds, a
`searchmoves` search is issued exactly when the first search's best
move differs from the played (last) move, and when they coincide the
played-move fields of the result are exactly the best-move fields and
only one search is performed. -/
theorem second_search_iff_played_differs (moves : List String) (depth : Nat)
    (stream : List ResponseLine) (h : moves ≠ []) :
    ∃ res cmds rest,
      analyzeLastMove true moves depth stream = .ok (res, cmds, rest) ∧
      (hasSearchmovesCmd cmds = true ↔
        (scanSearch 0 0 0 0 "" stream).bestMove ≠ moves.getLast h) ∧
      ((scanSearch 0 0 0 0 "" stream).bestMove = moves.getLast h →
        res.WhiteScore = res.BestMoveWhiteScore ∧
        res.WhiteWinProb = res.BestMoveWhiteWinProb ∧
        res.WhiteDrawProb = res.BestMoveWhiteDrawProb ∧
        res.WhiteLossProb = res.BestMoveWhiteLossProb ∧
        goCount cmds = 1) := by
  unfold analyzeLastMove
  rw [if_neg (by simp), dif_neg h]
  by_cases hb : (scanSearch 0 0 0 0 "" stream).bestMove = moves.getLast h
  · simp only [hb, bne_self_eq_false, Bool.false_eq_true, if_false]
    exact ⟨_, _, _, rfl, by simp [hasSearchmovesCmd, hb],
      fun _ => ⟨rfl, rfl, rfl, rfl, rfl⟩⟩
  · have hbne :
        ((scanSearch 0 0 0 0 "" stream).bestMove != moves.getLast h) = true :=
      bne_iff_ne.mpr hb
    simp only [hbne, if_true]
    exact ⟨_, _, _, rfl, by simp [hasSearchmovesCmd, hb],
      fun hcon => absurd hcon hb⟩

/-- Witness for C4: a one-move game against an already-closed response
stream (first search's best move is the empty string, which differs
from the played move). -/
theorem second_search_iff_played_differs_witness :
    ∃ res cmds rest,
      analyzeLastMove true ["e2e4"] 2 [] = .ok (res, cmds, rest) ∧
      (hasSearchmovesCmd cmds = true ↔
        (scanSearch 0 0 0 0 "" ([] : List ResponseLine)).bestMove ≠
          ["e2e4"].getLast (by simp)) ∧
      ((scanSearch 0 0 0 0 "" ([] : List ResponseLine)).bestMove =
          ["e2e4"].getLast (by simp) →
        res.WhiteScore = res.BestMoveWhiteScore ∧
        res.WhiteWinProb = res.BestMoveWhiteWinProb ∧
        res.WhiteDrawProb = res.BestMoveWhiteDrawProb ∧
        res.WhiteLossProb = res.BestMoveWhiteLossProb ∧
        goCount cmds = 1) :=
  second_search_iff_played_differs ["e2e4"] 2 [] (by simp)

/-- C5 (amended): a per-ply evaluation returns an error exactly when
the engine is not ready or the move list is empty — in particular a
search whose response stream closes before any `bestmove` terminator
does NOT produce an error. -/
theorem analyzeLastMove_error_iff (ready : Bool) (moves : List String)
    (depth : Nat) (stream : List ResponseLine) :
    (∃ e, analyzeLastMove ready moves depth stream = Except.error e) ↔
      (ready = false ∨ moves = []) := by
  constructor
  · rintro ⟨e, he⟩
    by_contra hcon
    push_neg at hcon
    obtain ⟨hr, hm⟩ := hcon
    unfold analyzeLastMove at he
    rw [if_neg hr, dif_neg hm] at he
    simp only [] at he
    split at he <;> simp at he
  · rintro (hr | hm)
    · exact ⟨"engine not ready", by unfold analyzeLastMove; rw [if_pos hr]⟩
    · by_cases hr : ready = false
      · exact ⟨"engine not ready", by unfold analyzeLastMove; rw [if_pos hr]⟩
      · exact ⟨"no moves provided",
          by unfold analyzeLastMove; rw [if_neg hr, dif_pos hm]⟩

/-- Witness for C5 (amended): a not-ready engine does error. -/
theorem analyzeLastMove_error_iff_witness :
    ∃ e, analyzeLastMove false ["e2e4"] 2 [] = Except.error e :=
  (analyzeLastMove_error_iff false ["e2e4"] 2 []).mpr (Or.inl rfl)

/-- A first ply (White) whose best-move decode is never consulted. -/
def silentPlyW : Ply :=
  { san := "e4", uci := "e2e4", pushOk := true, decodeBest := fun _ => none }

/-- A second ply (Black) whose best-move decode is never consulted. -/
def silentPlyB : Ply :=
  { san := "e5", uci := "e7e5", pushOk := true, decodeBest := fun _ => none }

/-- Counterexample to C5 as stated: with an already-closed response
stream no search ever observes a `bestmove` terminator, yet the
evaluation returns successfully (with an empty best move) instead of
failing, and the whole two-ply pipeline still emits both records and
reports no error at all. -/
theorem search_without_bestmove_no_error :
    ((analyzeLastMove true ["e2e4"] 2 []).toOption.map
        fun x => x.1.BestMove) = some "" ∧
    (scanSearch 0 0 0 0 "" ([] : List ResponseLine)).sawBestmove = false ∧
    (analyzeChessGameStreaming "x" (some []) (some [silentPlyW, silentPlyB]) 2
        defaultMoveClassifier).records.length = 2 ∧
    (analyzeChessGameStreaming "x" (some []) (some [silentPlyW, silentPlyB]) 2
        defaultMoveClassifier).errors = [] :=
  ⟨rfl, rfl, rfl, rfl⟩

/-- Last element of a consed list under `getD`, ignoring the earlier
default. -/
theorem getD_getLast?_cons {α : Type} (a d : α) (l : List α) :
    ((a :: l).getLast?).getD d = (l.getLast?).getD a := by
  cases h : l.getLast? with
  | none =>
    have hl : l = [] := List.getLast?_eq_none_iff.mp h
    subst hl
    rfl
  | some x =>
    have h2 : (a :: l).getLast? = some x := by
      cases l with
      | nil => simp at h
      | cons b t => rw [List.getLast?_cons_cons]; exact h
    simp [h2, h]

/-- The most recent centipawn score among a list of response lines,
with a default for when no line carries one — the value the scan
loop's score accumulator holds after walking the list. -/
def lastScoreD (xs : List ResponseLine) (d : ℚ) : ℚ :=
  ((xs.filterMap ResponseLine.scoreCp).getLast?).getD d

/-- The most recent win/draw/loss triple among a list of response
lines, divided by 1000, with defaults for when no line carries one. -/
def lastWdlD (xs : List ResponseLine) (w dr l : ℚ) : ℚ × ℚ × ℚ :=
  match (xs.filterMap ResponseLine.wdl).getLast? with
  | some (a, b, c) => ((a : ℚ) / 1000, (b : ℚ) / 1000, (c : ℚ) / 1000)
  | none => (w, dr, l)

theorem lastScoreD_cons (x : ResponseLine) (xs : List ResponseLine) (d : ℚ) :
    lastScoreD (x :: xs) d =
      lastScoreD xs (match x.scoreCp with | some s => s | none => d) := by
  cases h : x.scoreCp with
  | none => simp [lastScoreD, List.filterMap_cons, h]
  | some s => simp [lastScoreD, List.filterMap_cons, h, getD_getLast?_cons]

theorem lastWdlD_cons (x : ResponseLine) (xs : List ResponseLine)
    (w dr l : ℚ) :
    lastWdlD (x :: xs) w dr l =
      match x.wdl with
      | some (a, b, c) =>
        lastWdlD xs ((a : ℚ) / 1000) ((b : ℚ) / 1000) ((c : ℚ) / 1000)
      | none => lastWdlD xs w dr l := by
  cases h : x.wdl with
  | none => simp [lastWdlD, List.filterMap_cons, h]
  | some t =>
    obtain ⟨a, b, c⟩ := t
    simp only [lastWdlD, List.filterMap_cons, h]
    cases h2 : (xs.filterMap ResponseLine.wdl).getLast? with
    | none =>
      have hl : xs.filterMap ResponseLine.wdl = [] :=
        List.getLast?_eq_none_iff.mp h2
      simp [hl]
    | some y =>
      have h3 : ((a, b, c) :: xs.filterMap ResponseLine.wdl).getLast? =
          some y := by
        cases hfm : xs.filterMap ResponseLine.wdl with
        | nil => rw [hfm] at h2; simp at h2
        | cons z t =>
          rw [List.getLast?_cons_cons]
          rw [hfm] at h2
          exact h2
      simp [h3, h2]

/-- Scan of a stream made of non-terminator lines `xs`, a terminator
`bm` carrying no score or probability payload, and unread lines
`rest`: the loop records the last score and last probability triple
seen in `xs` (falling back to its accumulators), takes the best move
from the terminator, and leaves exactly `rest` unread. -/
theorem scanSearch_append (xs : List ResponseLine) (bm : ResponseLine)
    (rest : List ResponseLine) (hbm : bm.isBestmove = true)
    (hs : bm.scoreCp = none) (hw : bm.wdl = none)
    (hxs : ∀ l ∈ xs, l.isBestmove = false) :
    ∀ score win draw loss b,
      scanSearch score win draw loss b (xs ++ bm :: rest) =
        ⟨lastScoreD xs score, (lastWdlD xs win draw loss).1,
         (lastWdlD xs win draw loss).2.1, (lastWdlD xs win draw loss).2.2,
         (bm.bmArg).getD b, true, rest⟩ := by
  induction xs with
  | nil =>
    intro score win draw loss b
    simp only [List.nil_append, scanSearch, hs, hw, hbm, if_true]
    cases hb : bm.bmArg <;> simp [hb, lastScoreD, lastWdlD]
  | cons x xs ih =>
    intro score win draw loss b
    have hx : x.isBestmove = false := hxs x (by simp)
    have hxs' : ∀ l ∈ xs, l.isBestmove = false :=
      fun l hl => hxs l (by simp [hl])
    rw [List.cons_append]
    rw [lastScoreD_cons, lastWdlD_cons]
    cases hsc : x.scoreCp with
    | none =>
      cases hwd : x.wdl with
      | none =>
        simp only [scanSearch, hsc, hwd, hx, Bool.false_eq_true, if_false]
        exact ih hxs' score win draw loss b
      | some t =>
        obtain ⟨a, b', c⟩ := t
        simp only [scanSearch, hsc, hwd, hx, Bool.false_eq_true, if_false]
        exact ih hxs' score ((a : ℚ) / 1000) ((b' : ℚ) / 1000)
          ((c : ℚ) / 1000) b
    | some s =>
      cases hwd : x.wdl with
      | none =>
        simp only [scanSearch, hsc, hwd, hx, Bool.false_eq_true, if_false]
        exact ih hxs' s win draw loss b
      | some t =>
        obtain ⟨a, b', c⟩ := t
        simp only [scanSearch, hsc, hwd, hx, Bool.false_eq_true, if_false]
        exact ih hxs' s ((a : ℚ) / 1000) ((b' : ℚ) / 1000)
          ((c : ℚ) / 1000) b

/-- C8: during one search the evaluator records the score and the
win/draw/loss triple of the most recent line carrying them that
arrived before the `bestmove` terminator (zero when no such line
arrived), together with the terminator's best move; later lines stay
unread for the next search. -/
theorem scan_records_last_score_and_wdl (xs : List ResponseLine)
    (bm : ResponseLine) (rest : List ResponseLine)
    (hbm : bm.isBestmove = true) (hs : bm.scoreCp = none)
    (hw : bm.wdl = none) (hxs : ∀ l ∈ xs, l.isBestmove = false) :
    scanSearch 0 0 0 0 "" (xs ++ bm :: rest) =
      ⟨lastScoreD xs 0, (lastWdlD xs 0 0 0).1, (lastWdlD xs 0 0 0).2.1,
       (lastWdlD xs 0 0 0).2.2, (bm.bmArg).getD "", true, rest⟩ :=
  scanSearch_append xs bm rest hbm hs hw hxs 0 0 0 0 ""

/-- Witness for C8: two score/WDL lines followed by a terminator; the
second line's values are the ones recorded. -/
theorem scan_records_last_score_and_wdl_witness :
    scanSearch 0 0 0 0 ""
        ([⟨some 10, some (500, 300, 200), false, none⟩,
          ⟨some 25, some (600, 250, 150), false, none⟩] ++
          ⟨none, none, true, some "e2e4"⟩ ::
            [⟨some 99, none, false, none⟩]) =
      ⟨lastScoreD
         [⟨some 10, some (500, 300, 200), false, none⟩,
          ⟨some 25, some (600, 250, 150), false, none⟩] 0,
       (lastWdlD
         [⟨some 10, some (500, 300, 200), false, none⟩,
          ⟨some 25, some (600, 250, 150), false, none⟩] 0 0 0).1,
       (lastWdlD
         [⟨some 10, some (500, 300, 200), false, none⟩,
          ⟨some 25, some (600, 250, 150), false, none⟩] 0 0 0).2.1,
       (lastWdlD
         [⟨some 10, some (500, 300, 200), false, none⟩,
          ⟨some 25, some (600, 250, 150), false, none⟩] 0 0 0).2.2,
       (some "e2e4").getD "", true, [⟨some 99, none, false, none⟩]⟩ :=
  scan_records_last_score_and_wdl _ _ _ rfl rfl rfl
    (by intro l hl; simp at hl; rcases hl with h | h <;> simp [h])

/-- The relation between consecutive emitted records claimed by C10:
the later record's previous-ply fields are the earlier record's stored
White-relative fields. -/
def prevFollows (a b : MoveAnalysis) : Prop :=
  b.PreviousWhiteScore = a.WhiteScore ∧
  b.PreviousWhiteWinProb = a.WhiteWinProb ∧
  b.PreviousWhiteDrawProb = a.WhiteDrawProb ∧
  b.PreviousWhiteLossProb = a.WhiteLossProb

/-- The records a `runLoop` call emits start with the loop state's
previous-ply values and chain: each record's previous fields are the
preceding record's stored fields (skipped plies update neither). -/
theorem runLoop_prev_chain (classifier : MoveAnalysis → MoveClassification)
    (depth : Nat) :
    ∀ (plies : List Ply) (i : Nat) (st : RunState),
      (∀ r ∈ (runLoop classifier depth plies i st).1.head?,
        r.PreviousWhiteScore = st.prevScore ∧
        r.PreviousWhiteWinProb = st.prevWin ∧
        r.PreviousWhiteDrawProb = st.prevDraw ∧
        r.PreviousWhiteLossProb = st.prevLoss) ∧
      List.Chain' prevFollows (runLoop classifier depth plies i st).1 := by
  intro plies
  induction plies with
  | nil => intro i st; simp [runLoop]
  | cons ply rest ih =>
    intro i st
    by_cases hp : ply.pushOk = false
    · simp [runLoop, hp]
    · rcases heq : analyzeLastMove true (st.uciMoves ++ [ply.uci]) depth
          st.stream with e | tr
      · simp [runLoop, hp, heq]
      · obtain ⟨result, cmds, stream'⟩ := tr
        by_cases hd : result.BestMove ≠ "" ∧
            ply.decodeBest result.BestMove = none
        · have hrec := ih (i + 1)
            { st with uciMoves := st.uciMoves ++ [ply.uci], stream := stream' }
          simpa [runLoop, hp, heq, hd] using hrec
        · have hrec := ih (i + 1)
            { prevScore := result.WhiteScore, prevWin := result.WhiteWinProb,
              prevDraw := result.WhiteDrawProb,
              prevLoss := result.WhiteLossProb,
              uciMoves := st.uciMoves ++ [ply.uci], stream := stream' }
          simp only [runLoop]
          rw [if_neg hp]
          simp only [heq]
          rw [if_neg hd]
          constructor
          · intro r hr
            rw [List.head?_cons, Option.mem_def, Option.some_inj] at hr
            subst hr
            exact ⟨rfl, rfl, rfl, rfl⟩
          · rw [List.chain'_cons']
            refine ⟨fun y hy => ?_, hrec.2⟩
            have h5 := hrec.1 y hy
            exact ⟨h5.1, h5.2.1, h5.2.2.1, h5.2.2.2⟩

/-- C10: the first emitted record's previous-score and previous-WDL
fields are the package's starting-position constants, and every later
record's previous fields equal the stored White-relative fields of the
record emitted immediately before it. -/
theorem previous_fields_seed_and_chain (pgn : String)
    (engine : Option (List ResponseLine)) (parsedGame : Option (List Ply))
    (depth : Nat) (classifier : MoveAnalysis → MoveClassification) :
    (∀ r ∈ (analyzeChessGameStreaming pgn engine parsedGame depth
        classifier).records.head?,
      r.PreviousWhiteScore = StartingPositionWhiteScore ∧
      r.PreviousWhiteWinProb = StartingPositionWhiteWinProb ∧
      r.PreviousWhiteDrawProb = StartingPositionWhiteDrawProb ∧
      r.PreviousWhiteLossProb = StartingPositionWhiteLossProb) ∧
    List.Chain' prevFollows
      (analyzeChessGameStreaming pgn engine parsedGame depth
        classifier).records := by
  unfold analyzeChessGameStreaming
  by_cases hpgn : pgn = ""
  · simp [hpgn]
  · rcases engine with _ | stream
    · simp [hpgn]
    · rcases parsedGame with _ | plies
      · simp [hpgn]
      · simp only [hpgn, if_neg hpgn]
        exact runLoop_prev_chain classifier depth plies 0 _

/-- Witness for C10 at a concrete two-ply run against a closed
response stream. -/
theorem previous_fields_seed_and_chain_witness :
    (∀ r ∈ (analyzeChessGameStreaming "x" (some [])
        (some [silentPlyW, silentPlyB]) 2
        defaultMoveClassifier).records.head?,
      r.PreviousWhiteScore = StartingPositionWhiteScore ∧
      r.PreviousWhiteWinProb = StartingPositionWhiteWinProb ∧
      r.PreviousWhiteDrawProb = StartingPositionWhiteDrawProb ∧
      r.PreviousWhiteLossProb = StartingPositionWhiteLossProb) ∧
    List.Chain' prevFollows
      (analyzeChessGameStreaming "x" (some [])
        (some [silentPlyW, silentPlyB]) 2 defaultMoveClassifier).records :=
  previous_fields_seed_and_chain "x" (some []) (some [silentPlyW, silentPlyB])
    2 defaultMoveClassifier

/-- The header data (move number, color, SAN text) the loop must emit
for the plies starting at 0-based index `i` — one entry per ply, in ply
order. -/
def expectedHeaders : Nat → List Ply → List (Nat × String × String)
  | _, [] => []
  | i, p :: ps => (i / 2 + 1, colorOf i, p.san) :: expectedHeaders (i + 1) ps

theorem expectedHeaders_length : ∀ (i : Nat) (ps : List Ply),
    (expectedHeaders i ps).length = ps.length := by
  intro i ps
  induction ps generalizing i with
  | nil => rfl
  | cons p ps ih => simp [expectedHeaders, ih]

/-- When every ply's push succeeds and the rules library decodes every
non-empty UCI string at every ply, the loop emits exactly one record
per ply, carrying the expected move number, color and SAN text, and no
error. -/
theorem runLoop_happy (classifier : MoveAnalysis → MoveClassification)
    (depth : Nat) :
    ∀ (plies : List Ply) (i : Nat) (st : RunState),
      (∀ p ∈ plies, p.pushOk = true) →
      (∀ p ∈ plies, ∀ s, s ≠ "" → (p.decodeBest s).isSome) →
      ((runLoop classifier depth plies i st).1.map
          fun r => (r.MoveNumber, r.Color, r.MoveText)) =
        expectedHeaders i plies ∧
      (runLoop classifier depth plies i st).2 = none := by
  intro plies
  induction plies with
  | nil => intro i st _ _; exact ⟨rfl, rfl⟩
  | cons ply rest ih =>
    intro i st hpush hdec
    have hp : ¬ ply.pushOk = false := by
      rw [hpush ply (by simp)]; simp
    rcases heq : analyzeLastMove true (st.uciMoves ++ [ply.uci]) depth
        st.stream with e | tr
    · exfalso
      have hiff := (analyzeLastMove_error_iff true
        (st.uciMoves ++ [ply.uci]) depth st.stream).mp ⟨e, heq⟩
      rcases hiff with h | h
      · simp at h
      · simp at h
    · obtain ⟨result, cmds, stream'⟩ := tr
      have hd : ¬ (result.BestMove ≠ "" ∧
          ply.decodeBest result.BestMove = none) := by
        rintro ⟨hne, hnone⟩
        have := hdec ply (by simp) result.BestMove hne
        rw [hnone] at this
        simp at this
      have hrest := ih (i + 1)
        { prevScore := result.WhiteScore, prevWin := result.WhiteWinProb,
          prevDraw := result.WhiteDrawProb, prevLoss := result.WhiteLossProb,
          uciMoves := st.uciMoves ++ [ply.uci], stream := stream' }
        (fun p hpmem => hpush p (by simp [hpmem]))
        (fun p hpmem => hdec p (by simp [hpmem]))
      simp only [runLoop]
      rw [if_neg hp]
      simp only [heq]
      rw [if_neg hd]
      refine ⟨?_, hrest.2⟩
      rw [List.map_cons, hrest.1]
      rfl

/-- C2 (amended): for a non-empty PGN that parses, with a live engine
and with every ply's push succeeding and every non-empty engine best
move decodable by the rules library, the stream emits exactly one
record per ply of the main line, in ply order, and no error. -/
theorem one_record_per_ply (pgn : String) (stream : List ResponseLine)
    (plies : List Ply) (depth : Nat)
    (classifier : MoveAnalysis → MoveClassification)
    (hpgn : pgn ≠ "")
    (hpush : ∀ p ∈ plies, p.pushOk = true)
    (hdec : ∀ p ∈ plies, ∀ s, s ≠ "" → (p.decodeBest s).isSome) :
    ((analyzeChessGameStreaming pgn (some stream) (some plies) depth
        classifier).records.map
      fun r => (r.MoveNumber, r.Color, r.MoveText)) =
      expectedHeaders 0 plies ∧
    (analyzeChessGameStreaming pgn (some stream) (some plies) depth
        classifier).records.length = plies.length ∧
    (analyzeChessGameStreaming pgn (some stream) (some plies) depth
        classifier).errors = [] := by
  have hmain := runLoop_happy classifier depth plies 0
    { prevScore := StartingPositionWhiteScore
      prevWin := StartingPositionWhiteWinProb
      prevDraw := StartingPositionWhiteDrawProb
      prevLoss := StartingPositionWhiteLossProb
      uciMoves := []
      stream := stream } hpush hdec
  have hout : analyzeChessGameStreaming pgn (some stream) (some plies) depth
      classifier =
      { records := (runLoop classifier depth plies 0
          { prevScore := StartingPositionWhiteScore
            prevWin := StartingPositionWhiteWinProb
            prevDraw := StartingPositionWhiteDrawProb
            prevLoss := StartingPositionWhiteLossProb
            uciMoves := []
            stream := stream }).1,
        errors := (runLoop classifier depth plies 0
          { prevScore := StartingPositionWhiteScore
            prevWin := StartingPositionWhiteWinProb
            prevDraw := StartingPositionWhiteDrawProb
            prevLoss := StartingPositionWhiteLossProb
            uciMoves := []
            stream := stream }).2.toList,
        engineSpawned := true } := by
    unfold analyzeChessGameStreaming
    rw [if_neg hpgn]
  rw [hout]
  refine ⟨hmain.1, ?_, ?_⟩
  · have hlen := congrArg List.length hmain.1
    rw [List.length_map, expectedHeaders_length] at hlen
    exact hlen
  · rw [hmain.2]
    rfl

/-- Witness for C2 (amended): a two-ply game, closed response stream,
rules library decoding everything. -/
def decodingPlyW : Ply :=
  { san := "e4", uci := "e2e4", pushOk := true,
    decodeBest := fun _ => some "e4" }

/-- Second ply for the C2 witness. -/
def decodingPlyB : Ply :=
  { san := "e5", uci := "e7e5", pushOk := true,
    decodeBest := fun _ => some "e5" }

/-- Witness for C2 (amended) at a concrete two-ply run. -/
theorem one_record_per_ply_witness :
    ((analyzeChessGameStreaming "x" (some [])
        (some [decodingPlyW, decodingPlyB]) 2
        defaultMoveClassifier).records.map
      fun r => (r.MoveNumber, r.Color, r.MoveText)) =
      expectedHeaders 0 [decodingPlyW, decodingPlyB] ∧
    (analyzeChessGameStreaming "x" (some [])
        (some [decodingPlyW, decodingPlyB]) 2
        defaultMoveClassifier).records.length =
      [decodingPlyW, decodingPlyB].length ∧
    (analyzeChessGameStreaming "x" (some [])
        (some [decodingPlyW, decodingPlyB]) 2
        defaultMoveClassifier).errors = [] :=
  one_record_per_ply "x" [] [decodingPlyW, decodingPlyB] 2
    defaultMoveClassifier (by simp)
    (by intro p hp; simp only [List.mem_cons] at hp
        rcases hp with h | h | h <;> first | (subst h; rfl) | simp at h)
    (by intro p hp s _; simp only [List.mem_cons] at hp
        rcases hp with h | h | h <;>
          first | (subst h; simp [decodingPlyW, decodingPlyB]) | simp at h)

/-- Counterexample to C2 as stated: a one-ply game where the engine
returns a best move the rules library cannot decode; the offending ply
is silently skipped — zero records are emitted although the main line
has one ply, and no error (fatal or otherwise) is reported. -/
theorem skipped_ply_no_record_no_error :
    (analyzeChessGameStreaming "x"
        (some [⟨none, none, true, some "a7a6"⟩]) (some [silentPlyW]) 2
        defaultMoveClassifier).records = [] ∧
    (analyzeChessGameStreaming "x"
        (some [⟨none, none, true, some "a7a6"⟩]) (some [silentPlyW]) 2
        defaultMoveClassifier).errors = [] ∧
    [silentPlyW].length = 1 :=
  ⟨rfl, rfl, rfl⟩

/-- The White-relative conversion of a successful evaluation: for an
odd move list (White just moved) the result's played-move fields are
the raw scanned values, for an even one (Black just moved) the score
is negated and the win/loss probabilities are swapped. -/
theorem analyzeLastMove_white_relative (moves : List String) (depth : Nat)
    (stream : List ResponseLine) (lastMove : String)
    (res : AnalysisResult) (cmds : List Command) (rest : List ResponseLine)
    (hlast : moves.getLast? = some lastMove)
    (heq : analyzeLastMove true moves depth stream = .ok (res, cmds, rest)) :
    (moves.length % 2 = 1 →
      res.WhiteScore = (playedRawEval stream lastMove).1 ∧
      res.WhiteWinProb = (playedRawEval stream lastMove).2.1 ∧
      res.WhiteDrawProb = (playedRawEval stream lastMove).2.2.1 ∧
      res.WhiteLossProb = (playedRawEval stream lastMove).2.2.2) ∧
    (moves.length % 2 = 0 →
      res.WhiteScore = -(playedRawEval stream lastMove).1 ∧
      res.WhiteWinProb = (playedRawEval stream lastMove).2.2.2 ∧
      res.WhiteDrawProb = (playedRawEval stream lastMove).2.2.1 ∧
      res.WhiteLossProb = (playedRawEval stream lastMove).2.1) := by
  have hne : moves ≠ [] := by
    intro hnil
    rw [hnil] at hlast
    simp at hlast
  have hgl : moves.getLast hne = lastMove := by
    rw [List.getLast?_eq_getLast moves hne] at hlast
    exact Option.some_inj.mp hlast
  unfold analyzeLastMove at heq
  rw [if_neg (by simp), dif_neg hne] at heq
  simp only [] at heq
  rw [hgl] at heq
  unfold playedRawEval
  by_cases hb : (scanSearch 0 0 0 0 "" stream).bestMove = lastMove
  · simp only [hb, bne_self_eq_false, Bool.false_eq_true, if_false] at heq ⊢
    simp only [Except.ok.injEq, Prod.mk.injEq] at heq
    obtain ⟨h1, -, -⟩ := heq
    subst h1
    constructor <;> intro hpar <;>
      simp [whiteRelScore, whiteRelWdl, hpar]
  · have hbne := bne_iff_ne.mpr hb
    simp only [hbne, if_true] at heq ⊢
    simp only [Except.ok.injEq, Prod.mk.injEq] at heq
    obtain ⟨h1, -, -⟩ := heq
    subst h1
    constructor <;> intro hpar <;>
      simp [whiteRelScore, whiteRelWdl, hpar]

/-- Every record a `runLoop` call emits originates from one successful
evaluation of the accumulated UCI move list ending in that ply's UCI
move: the record copies the evaluator's played-move fields and best
move verbatim, its `IsBestMove` flag compares the best move against
the ply's UCI text, and its color matches the parity of the evaluated
move list (odd for White). -/
theorem runLoop_record_origin (classifier : MoveAnalysis → MoveClassification)
    (depth : Nat) :
    ∀ (plies : List Ply) (i : Nat) (st : RunState),
      st.uciMoves.length = i →
      ∀ r ∈ (runLoop classifier depth plies i st).1,
        ∃ (p : Ply) (mvs : List String) (s : List ResponseLine)
          (res : AnalysisResult) (cmds : List Command)
          (rest : List ResponseLine),
          p ∈ plies ∧
          analyzeLastMove true mvs depth s = .ok (res, cmds, rest) ∧
          mvs.getLast? = some p.uci ∧
          r.MoveText = p.san ∧ r.BestMove = res.BestMove ∧
          r.IsBestMove = (res.BestMove == p.uci) ∧
          r.WhiteScore = res.WhiteScore ∧
          r.WhiteWinProb = res.WhiteWinProb ∧
          r.WhiteDrawProb = res.WhiteDrawProb ∧
          r.WhiteLossProb = res.WhiteLossProb ∧
          ((r.Color = "White" ∧ mvs.length % 2 = 1) ∨
           (r.Color = "Black" ∧ mvs.length % 2 = 0)) := by
  intro plies
  induction plies with
  | nil => intro i st _ r hr; simp [runLoop] at hr
  | cons ply rest ih =>
    intro i st hlen r hr
    by_cases hp : ply.pushOk = false
    · simp [runLoop, hp] at hr
    · rcases heq : analyzeLastMove true (st.uciMoves ++ [ply.uci]) depth
          st.stream with e | tr
      · simp [runLoop, hp, heq] at hr
      · obtain ⟨result, cmds, stream'⟩ := tr
        by_cases hd : result.BestMove ≠ "" ∧
            ply.decodeBest result.BestMove = none
        · have hr' : r ∈ (runLoop classifier depth rest (i + 1)
              { st with uciMoves := st.uciMoves ++ [ply.uci], stream := stream' }).1 := by
            simp only [runLoop] at hr
            rw [if_neg hp] at hr
            simp only [heq] at hr
            rw [if_pos hd] at hr
            exact hr
          obtain ⟨p, mvs, s, res, cmds', rest', hmem, hrest⟩ :=
            ih (i + 1) _ (by simp [hlen]) r hr'
          exact ⟨p, mvs, s, res, cmds', rest', by simp [hmem], hrest⟩
        · simp only [runLoop] at hr
          rw [if_neg hp] at hr
          simp only [heq] at hr
          rw [if_neg hd] at hr
          rw [List.mem_cons] at hr
          rcases hr with hr | hr
          · subst hr
            refine ⟨ply, st.uciMoves ++ [ply.uci], st.stream, result, cmds,
              stream', by simp, heq, List.getLast?_concat _, rfl, rfl, rfl,
              rfl, rfl, rfl, rfl, ?_⟩
            have hlen2 : (st.uciMoves ++ [ply.uci]).length = i + 1 := by
              simp [hlen]
            by_cases hi : i % 2 = 1
            · right
              constructor
              · show colorOf i = "Black"
                unfold colorOf
                rw [if_pos hi]
              · rw [hlen2]; omega
            · left
              constructor
              · show colorOf i = "White"
                unfold colorOf
                rw [if_neg hi]
              · rw [hlen2]; omega
          · obtain ⟨p, mvs, s, res, cmds', rest', hmem, hrest⟩ :=
              ih (i + 1) _ (by simp [hlen]) r hr
            exact ⟨p, mvs, s, res, cmds', rest', by simp [hmem], hrest⟩

/-- The response lines one per-ply evaluation leaves unread, expressed
directly over the scans: the first search consumes through the first
`bestmove` terminator, and when its best move differs from the played
move the second search consumes through the next one. -/
def playedRawRest (stream : List ResponseLine) (lastMove : String) :
    List ResponseLine :=
  let s1 := scanSearch 0 0 0 0 "" stream
  if s1.bestMove != lastMove then (scanSearch 0 0 0 0 "" s1.rest).rest
  else s1.rest

/-- A successful evaluation's recorded best move is the first search's
scanned best move, and the stream it returns unread is exactly
`playedRawRest` of the stream it was given. -/
theorem analyzeLastMove_ok_parts (moves : List String) (depth : Nat)
    (stream : List ResponseLine) (lastMove : String)
    (res : AnalysisResult) (cmds : List Command) (rest : List ResponseLine)
    (hlast : moves.getLast? = some lastMove)
    (heq : analyzeLastMove true moves depth stream = .ok (res, cmds, rest)) :
    res.BestMove = (scanSearch 0 0 0 0 "" stream).bestMove ∧
    rest = playedRawRest stream lastMove := by
  have hne : moves ≠ [] := by
    intro hnil
    rw [hnil] at hlast
    simp at hlast
  have hgl : moves.getLast hne = lastMove := by
    rw [List.getLast?_eq_getLast moves hne] at hlast
    exact Option.some_inj.mp hlast
  unfold analyzeLastMove at heq
  rw [if_neg (by simp), dif_neg hne] at heq
  simp only [] at heq
  rw [hgl] at heq
  unfold playedRawRest
  by_cases hb : (scanSearch 0 0 0 0 "" stream).bestMove = lastMove
  · simp only [hb, bne_self_eq_false, Bool.false_eq_true, if_false] at heq ⊢
    simp only [Except.ok.injEq, Prod.mk.injEq] at heq
    obtain ⟨h1, -, h3⟩ := heq
    subst h1
    exact ⟨rfl, h3.symm⟩
  · have hbne := bne_iff_ne.mpr hb
    simp only [hbne, if_true] at heq ⊢
    simp only [Except.ok.injEq, Prod.mk.injEq] at heq
    obtain ⟨h1, -, h3⟩ := heq
    subst h1
    exact ⟨rfl, h3.symm⟩

/-- Spec-side statement of C1's convention, written from the claim's
words and computed solely from the run's inputs (the parsed plies and
the engine response stream) via the raw scans: one tuple per emitted
record, carrying the record's color and its stored score and
win/draw/loss probabilities.  The emission conditions mirror the
driver (a failed push truncates; a non-empty scanned best move the
rules library cannot decode skips the ply), the stream advances by
exactly the lines each ply's evaluation consumes
(`playedRawRest`), and the stored fields are the claim's conversion of
the ply's raw engine output (`playedRawEval`): for a White-to-move ply
(even 0-based index) the raw values unchanged, for a Black-to-move ply
the raw score negated and the raw win/loss probabilities swapped. -/
def specStoredFields : List Ply → Nat → List ResponseLine →
    List (String × ℚ × ℚ × ℚ × ℚ)
  | [], _, _ => []
  | ply :: rest, i, stream =>
    if ply.pushOk = false then []
    else
      let bestMove := (scanSearch 0 0 0 0 "" stream).bestMove
      let raw := playedRawEval stream ply.uci
      let stream' := playedRawRest stream ply.uci
      if bestMove ≠ "" ∧ ply.decodeBest bestMove = none then
        specStoredFields rest (i + 1) stream'
      else
        (if i % 2 = 1 then
          ("Black", -raw.1, raw.2.2.2, raw.2.2.1, raw.2.1)
        else
          ("White", raw.1, raw.2.1, raw.2.2.1, raw.2.2.2)) ::
          specStoredFields rest (i + 1) stream'

/-- Lockstep refinement between the driver loop and the spec-side
field description: the stored color/score/probability fields of the
records the loop emits are exactly `specStoredFields` of the plies and
of the loop state's response stream. -/
theorem runLoop_stored_fields (classifier : MoveAnalysis → MoveClassification)
    (depth : Nat) :
    ∀ (plies : List Ply) (i : Nat) (st : RunState),
      st.uciMoves.length = i →
      ((runLoop classifier depth plies i st).1.map
          fun r => (r.Color, r.WhiteScore, r.WhiteWinProb, r.WhiteDrawProb,
            r.WhiteLossProb)) =
        specStoredFields plies i st.stream := by
  intro plies
  induction plies with
  | nil => intro i st _; rfl
  | cons ply rest ih =>
    intro i st hlen
    by_cases hp : ply.pushOk = false
    · simp only [runLoop, specStoredFields]
      rw [if_pos hp, if_pos hp]
      rfl
    · rcases heq : analyzeLastMove true (st.uciMoves ++ [ply.uci]) depth
          st.stream with e | tr
      · exfalso
        have hiff := (analyzeLastMove_error_iff true
          (st.uciMoves ++ [ply.uci]) depth st.stream).mp ⟨e, heq⟩
        rcases hiff with h | h
        · simp at h
        · simp at h
      · obtain ⟨result, cmds, stream'⟩ := tr
        obtain ⟨hbm, hrest⟩ := analyzeLastMove_ok_parts
          (st.uciMoves ++ [ply.uci]) depth st.stream ply.uci result cmds
          stream' (List.getLast?_concat _) heq
        have hconv := analyzeLastMove_white_relative
          (st.uciMoves ++ [ply.uci]) depth st.stream ply.uci result cmds
          stream' (List.getLast?_concat _) heq
        have hlen2 : (st.uciMoves ++ [ply.uci]).length = i + 1 := by
          simp [hlen]
        by_cases hd : result.BestMove ≠ "" ∧
            ply.decodeBest result.BestMove = none
        · have hd' : (scanSearch 0 0 0 0 "" st.stream).bestMove ≠ "" ∧
              ply.decodeBest
                (scanSearch 0 0 0 0 "" st.stream).bestMove = none := by
            rw [← hbm]; exact hd
          simp only [runLoop, specStoredFields]
          rw [if_neg hp, if_neg hp]
          simp only [heq]
          rw [if_pos hd, if_pos hd']
          rw [← hrest]
          exact ih (i + 1)
            { st with uciMoves := st.uciMoves ++ [ply.uci], stream := stream' }
            (by simp [hlen])
        · have hd' : ¬ ((scanSearch 0 0 0 0 "" st.stream).bestMove ≠ "" ∧
              ply.decodeBest
                (scanSearch 0 0 0 0 "" st.stream).bestMove = none) := by
            rw [← hbm]; exact hd
          simp only [runLoop, specStoredFields]
          rw [if_neg hp, if_neg hp]
          simp only [heq]
          rw [if_neg hd, if_neg hd']
          rw [List.map_cons]
          rw [← hrest]
          congr 1
          · by_cases hi : i % 2 = 1
            · have hpar : (st.uciMoves ++ [ply.uci]).length % 2 = 0 := by
                rw [hlen2]; omega
              obtain ⟨e1, e2, e3, e4⟩ := hconv.2 hpar
              rw [if_pos hi]
              show (colorOf i, result.WhiteScore, result.WhiteWinProb,
                result.WhiteDrawProb, result.WhiteLossProb) = _
              rw [e1, e2, e3, e4]
              unfold colorOf
              rw [if_pos hi]
            · have hpar : (st.uciMoves ++ [ply.uci]).length % 2 = 1 := by
                rw [hlen2]; omega
              obtain ⟨e1, e2, e3, e4⟩ := hconv.1 hpar
              rw [if_neg hi]
              show (colorOf i, result.WhiteScore, result.WhiteWinProb,
                result.WhiteDrawProb, result.WhiteLossProb) = _
              rw [e1, e2, e3, e4]
              unfold colorOf
              rw [if_neg hi]
          · exact ih (i + 1)
              { prevScore := result.WhiteScore,
                prevWin := result.WhiteWinProb,
                prevDraw := result.WhiteDrawProb,
                prevLoss := result.WhiteLossProb,
                uciMoves := st.uciMoves ++ [ply.uci], stream := stream' }
              (by simp [hlen])

/-- C1 (with the conversion modelled from the spec): the stored
color/score/win/draw/loss fields of the records a run emits are
exactly the spec-side description computed from the run's own inputs:
each emitted record carries, for its ply's actual response-stream
segment and played move, the raw scanned engine output when the side
to move is White, and the negated score with swapped win/loss
probabilities when the side to move is Black. -/
theorem stored_fields_white_relative (pgn : String)
    (stream : List ResponseLine) (plies : List Ply) (depth : Nat)
    (classifier : MoveAnalysis → MoveClassification) (hpgn : pgn ≠ "") :
    ((analyzeChessGameStreaming pgn (some stream) (some plies) depth
        classifier).records.map
      fun r => (r.Color, r.WhiteScore, r.WhiteWinProb, r.WhiteDrawProb,
        r.WhiteLossProb)) =
      specStoredFields plies 0 stream := by
  have hout : (analyzeChessGameStreaming pgn (some stream) (some plies)
      depth classifier).records =
      (runLoop classifier depth plies 0
        { prevScore := StartingPositionWhiteScore
          prevWin := StartingPositionWhiteWinProb
          prevDraw := StartingPositionWhiteDrawProb
          prevLoss := StartingPositionWhiteLossProb
          uciMoves := []
          stream := stream }).1 := by
    unfold analyzeChessGameStreaming
    rw [if_neg hpgn]
  rw [hout]
  exact runLoop_stored_fields classifier depth plies 0
    { prevScore := StartingPositionWhiteScore
      prevWin := StartingPositionWhiteWinProb
      prevDraw := StartingPositionWhiteDrawProb
      prevLoss := StartingPositionWhiteLossProb
      uciMoves := []
      stream := stream } rfl

/-- Engine responses for the C1 witness run: one score/WDL line, then
a `bestmove e2e4` terminator matching the first played move. -/
def c1Stream : List ResponseLine :=
  [⟨some 20, some (550, 300, 150), false, none⟩,
   ⟨none, none, true, some "e2e4"⟩]

/-- Witness for C1 at a concrete two-ply (White then Black) run; the
run provably emits two records, so the field equality is over a
non-empty record list. -/
theorem stored_fields_white_relative_witness :
    ((analyzeChessGameStreaming "x" (some c1Stream)
        (some [decodingPlyW, silentPlyB]) 2
        defaultMoveClassifier).records.map
      fun r => (r.Color, r.WhiteScore, r.WhiteWinProb, r.WhiteDrawProb,
        r.WhiteLossProb)) =
      specStoredFields [decodingPlyW, silentPlyB] 0 c1Stream ∧
    (analyzeChessGameStreaming "x" (some c1Stream)
        (some [decodingPlyW, silentPlyB]) 2
        defaultMoveClassifier).records.length = 2 :=
  ⟨stored_fields_white_relative "x" c1Stream [decodingPlyW, silentPlyB] 2
    defaultMoveClassifier (by decide), rfl⟩

/-- C6 (amended): for every emitted record there is a ply of the
parsed game such that the record's move text is that ply's SAN
encoding and `IsBestMove` is true exactly when the stored best-move
text equals that ply's UCI encoding — the comparison is against the
played move's UCI text, not against the stored (SAN) move text. -/
theorem isBestMove_iff_best_equals_uci (pgn : String)
    (stream : List ResponseLine) (plies : List Ply) (depth : Nat)
    (classifier : MoveAnalysis → MoveClassification) (r : MoveAnalysis)
    (hr : r ∈ (analyzeChessGameStreaming pgn (some stream) (some plies)
        depth classifier).records) :
    ∃ p ∈ plies, r.MoveText = p.san ∧
      r.IsBestMove = (r.BestMove == p.uci) := by
  by_cases hpgn : pgn = ""
  · rw [hpgn] at hr
    simp [analyzeChessGameStreaming] at hr
  · have hout : (analyzeChessGameStreaming pgn (some stream) (some plies)
        depth classifier).records =
        (runLoop classifier depth plies 0
          { prevScore := StartingPositionWhiteScore
            prevWin := StartingPositionWhiteWinProb
            prevDraw := StartingPositionWhiteDrawProb
            prevLoss := StartingPositionWhiteLossProb
            uciMoves := []
            stream := stream }).1 := by
      unfold analyzeChessGameStreaming
      rw [if_neg hpgn]
    rw [hout] at hr
    obtain ⟨p, mvs, s, res, cmds', rest', hmem, -, -, htext, hbest, hflag,
      -, -, -, -, -⟩ := runLoop_record_origin classifier depth plies 0
        { prevScore := StartingPositionWhiteScore
          prevWin := StartingPositionWhiteWinProb
          prevDraw := StartingPositionWhiteDrawProb
          prevLoss := StartingPositionWhiteLossProb
          uciMoves := []
          stream := stream } rfl r hr
    refine ⟨p, hmem, htext, ?_⟩
    rw [hflag, hbest]

/-- A ply whose played move will coincide with the engine's best move
and whose decode of that best move yields the SAN text back. -/
def matchedPly : Ply :=
  { san := "e4", uci := "e2e4", pushOk := true,
    decodeBest := fun _ => some "e4" }

/-- Engine responses for the `matchedPly` run: one score/WDL line,
then a `bestmove e2e4` terminator. -/
def matchedStream : List ResponseLine :=
  [⟨some 20, some (550, 300, 150), false, none⟩,
   ⟨none, none, true, some "e2e4"⟩]

/-- Counterexample to C6 as stated: in a concrete one-ply run the
engine's best move equals the played move, so the emitted record has
`IsBestMove = true`, yet its stored move text (the SAN `"e4"`) is not
equal to its stored best-move text (the UCI `"e2e4"`) — the claimed
equivalence between `IsBestMove` and move-text equality fails. -/
theorem isBestMove_text_mismatch :
    ((analyzeChessGameStreaming "x" (some matchedStream) (some [matchedPly])
        2 defaultMoveClassifier).records.map
      fun r => (r.IsBestMove, r.MoveText, r.BestMove)) =
      [(true, "e4", "e2e4")] ∧
    ¬ (("e4" : String) = "e2e4") :=
  ⟨rfl, by decide⟩

/-- The concrete one-ply run of the C6 counterexample, reused to
witness the amended statement. -/
def c6run : StreamOutput :=
  analyzeChessGameStreaming "x" (some matchedStream) (some [matchedPly]) 2
    defaultMoveClassifier

theorem c6run_records_ne_nil : c6run.records ≠ [] :=
  List.cons_ne_nil _ _

/-- Witness for C6 (amended) at the record emitted by the concrete
one-ply run. -/
theorem isBestMove_iff_best_equals_uci_witness :
    ∃ p ∈ [matchedPly],
      (c6run.records.head c6run_records_ne_nil).MoveText = p.san ∧
      (c6run.records.head c6run_records_ne_nil).IsBestMove =
        ((c6run.records.head c6run_records_ne_nil).BestMove == p.uci) :=
  isBestMove_iff_best_equals_uci "x" matchedStream [matchedPly] 2
    defaultMoveClassifier (c6run.records.head c6run_records_ne_nil)
    (List.head_mem c6run_records_ne_nil)

end ChessAnalyzer
